import Mathlib

/-!
Verification development for the MuZero repository (`src/games/game.py`,
`src/muzero.py`).  Python floats are modelled exactly as rationals (ℚ),
Python lists as Lean lists, and fallible operations (raising `IndexError`
or `ValueError`) as `Except String` / `Option` results.  Random draws
(`random.choice`, `random.randrange`) are modelled by an externally
supplied stream of naturals reduced modulo the relevant length, exactly
as a uniform draw is realised.
-/

namespace MuZero

instance {ε β : Type} [DecidableEq ε] [DecidableEq β] : DecidableEq (Except ε β) :=
  fun a b =>
    match a, b with
    | .error e1, .error e2 => decidable_of_iff (e1 = e2) (by simp)
    | .ok v1, .ok v2 => decidable_of_iff (v1 = v2) (by simp)
    | .error _, .ok _ => isFalse (by simp)
    | .ok _, .error _ => isFalse (by simp)

/-- A recorded target triple: `(value, last_reward, policy_target)`.
`last_reward` is `none` for Python's `None` sentinel. -/
abbrev Target : Type := ℚ × Option ℚ × List ℚ

/-- `games.game.Game` (lines 77-162): the per-episode trajectory record.
The gym environment is external; observations are an opaque type `α`.
`action_space_size` is the size of the discrete action space. -/
structure Game (α : Type) where
  observations : List α
  history : List Nat
  rewards : List ℚ
  child_visits : List (List ℚ)
  root_values : List ℚ
  action_space_size : Nat
  discount : ℚ
  done : Bool
deriving DecidableEq

/-- A fresh `Game` as built by `Game.__init__` (lines 80-89): all five
sequences empty, `done = False`. -/
def Game.new (α : Type) (actionSpaceSize : Nat) (discount : ℚ) : Game α :=
  { observations := []
    history := []
    rewards := []
    child_visits := []
    root_values := []
    action_space_size := actionSpaceSize
    discount := discount
    done := false }

/-- Placeholder game used as the (unreachable) default of list lookups. -/
def Game.dummy (α : Type) : Game α :=
  Game.new α 0 0

instance (α : Type) : Inhabited (Game α) := ⟨Game.dummy α⟩

/-- `Game.terminal` (lines 91-92). -/
def Game.terminal (g : Game α) : Bool := g.done

/-- `Game.legal_actions` (lines 94-95): `list(range(self.action_space_size))`. -/
def Game.legalActions (g : Game α) : List Nat := List.range g.action_space_size

/-- The reward loop of `make_target` (lines 143-144):
`for i, reward in enumerate(slice): value += reward * discount ** i`. -/
def discountedRewardSum (discount : ℚ) (rs : List ℚ) : ℚ :=
  (rs.enum.map (fun p => p.2 * discount ^ p.1)).sum

/-- One iteration of the `make_target` loop body (lines 136-155) at
`current_index`.  `rewards[current_index:bootstrap_index]` is
`(drop current_index).take tdSteps` since `bootstrap_index =
current_index + tdSteps`; the guarded lookups `root_values[bootstrap_index]`
and `child_visits[current_index]` use `getD` whose default is unreachable
under the guards. -/
def targetAt (g : Game α) (currentIndex tdSteps : Nat) : Target :=
  let bootstrapIndex := currentIndex + tdSteps
  let value0 : ℚ :=
    if bootstrapIndex < g.root_values.length then
      g.root_values.getD bootstrapIndex 0 * g.discount ^ tdSteps
    else 0
  let value :=
    value0 + discountedRewardSum g.discount ((g.rewards.drop currentIndex).take tdSteps)
  let lastReward : Option ℚ :=
    if 0 < currentIndex ∧ currentIndex ≤ g.rewards.length then
      some (g.rewards.getD (currentIndex - 1) 0)
    else none
  if currentIndex < g.root_values.length then
    (value, lastReward, g.child_visits.getD currentIndex [])
  else
    (0, lastReward, [])

/-- `Game.make_target` (lines 131-156): one target per
`current_index in range(state_index, state_index + num_unroll_steps + 1)`. -/
def makeTarget (g : Game α) (stateIndex numUnrollSteps tdSteps : Nat) : List Target :=
  (List.range (numUnrollSteps + 1)).map (fun k => targetAt g (stateIndex + k) tdSteps)

/-- The value-target formula exactly as the spec words it (§4.4): with
`i = index + k` and `b = i + td_steps`,
`value = root_values[b] * discount^td_steps` if `b` is within the recorded
root values, else `0`, plus
`sum(rewards[i:b][j] * discount^j for j in range(len(rewards[i:b])))`. -/
def specValueTarget (g : Game α) (i tdSteps : Nat) : ℚ :=
  (if i + tdSteps < g.root_values.length then
      g.root_values.getD (i + tdSteps) 0 * g.discount ^ tdSteps
    else 0)
  + ∑ j in Finset.range ((g.rewards.drop i).take tdSteps).length,
      ((g.rewards.drop i).take tdSteps).getD j 0 * g.discount ^ j

lemma enumFrom_weighted_sum (d : ℚ) (l : List ℚ) (k : Nat) :
    ((l.enumFrom k).map (fun p => p.2 * d ^ p.1)).sum =
      ∑ j in Finset.range l.length, l.getD j 0 * d ^ (k + j) := by
  induction l generalizing k with
  | nil => simp
  | cons r t ih =>
    rw [List.enumFrom_cons, List.map_cons, List.sum_cons, ih (k + 1),
      List.length_cons, Finset.sum_range_succ']
    simp only [List.getD_cons_succ, List.getD_cons_zero, pow_zero]
    rw [add_comm]
    congr 1
    refine Finset.sum_congr rfl (fun j _ => ?_)
    have hkj : k + 1 + j = k + (j + 1) := by omega
    rw [hkj]

lemma discountedRewardSum_eq_finsetSum (d : ℚ) (l : List ℚ) :
    discountedRewardSum d l = ∑ j in Finset.range l.length, l.getD j 0 * d ^ j := by
  have h := enumFrom_weighted_sum d l 0
  simpa [discountedRewardSum, List.enum] using h

lemma makeTarget_getD (g : Game α) (stateIndex numUnrollSteps tdSteps k : Nat)
    (hk : k ≤ numUnrollSteps) :
    (makeTarget g stateIndex numUnrollSteps tdSteps).getD k (0, none, []) =
      targetAt g (stateIndex + k) tdSteps := by
  have hk1 : k < numUnrollSteps + 1 := Nat.lt_succ_of_le hk
  simp [makeTarget, List.getD, List.getElem?_map, List.getElem?_range, hk1]

/-- `Game.get_observation_from_index` (lines 122-129): when `observations`
is empty it first appends a reset observation, a `0.0` reward and a `0`
action in place, then returns `observations[state_index]`
(`none` models a raised `IndexError` for an out-of-range index).
The result is the updated game state paired with the looked-up value. -/
def getObservationFromIndex (g : Game α) (resetObs : α) (stateIndex : Nat) :
    Game α × Option α :=
  let g2 :=
    if g.observations.isEmpty then
      { g with observations := g.observations ++ [resetObs]
               rewards := g.rewards ++ [0]
               history := g.history ++ [0] }
    else g
  (g2, g2.observations.get? stateIndex)

/-- One element of a sampled batch:
`(observation, actions, targets)` as assembled on line 178-179. -/
abbrev BatchElem (α : Type) : Type := Option α × List Nat × List Target

/-- One entry of the batch comprehension (lines 178-180):
`(g.get_observation_from_index(i), g.history[i:i+num_unroll_steps],
g.make_target(i, num_unroll_steps, td_steps, g.to_play()))`.
`get_observation_from_index` may mutate `g` in place, and the later
components read the mutated object, so the pair carries the updated game. -/
def sampleElement (g : Game α) (resetObs : α) (i numUnrollSteps tdSteps : Nat) :
    Game α × BatchElem α :=
  let go := getObservationFromIndex g resetObs i
  (go.1, (go.2, (go.1.history.drop i).take numUnrollSteps,
    makeTarget go.1 i numUnrollSteps tdSteps))

/-- `games.game.ReplayBuffer` (lines 165-188).  `buffer` models the
`deque(maxlen=window_size)`, oldest first. -/
structure ReplayBuffer (α : Type) where
  window_size : Nat
  batch_size : Nat
  buffer : List (Game α)
deriving DecidableEq

/-- `ReplayBuffer.__init__` (lines 167-170): empty deque with capacity
`window_size`. -/
def ReplayBuffer.new (α : Type) (windowSize batchSize : Nat) : ReplayBuffer α :=
  { window_size := windowSize, batch_size := batchSize, buffer := [] }

/-- `deque(maxlen=m).append(x)`: appends, discarding from the opposite
(oldest) side when the deque is at its maximum length. -/
def dequeAppendMax (maxlen : Nat) (buf : List β) (x : β) : List β :=
  if buf.length < maxlen then buf ++ [x]
  else (buf ++ [x]).drop (buf.length + 1 - maxlen)

/-- `ReplayBuffer.save_game` (lines 172-173): `self.buffer.append(game)`
on the bounded deque. -/
def saveGame (rb : ReplayBuffer α) (g : Game α) : ReplayBuffer α :=
  { rb with buffer := dequeAppendMax rb.window_size rb.buffer g }

/-- The comprehension `games = [self.sample_game() for _ in
range(self.batch_size)]` (line 176), as buffer indices.
`random.choice` on an empty sequence raises `IndexError`; on a non-empty
one the draw `r` picks index `r % len(buffer)`. -/
def sampleGamesIdx (buf : List (Game α)) : List Nat → Except String (List Nat)
  | [] => .ok []
  | r :: rs =>
    if buf.isEmpty then .error "IndexError: cannot choose from an empty sequence"
    else
      match sampleGamesIdx buf rs with
      | .error e => .error e
      | .ok gis => .ok (r % buf.length :: gis)

/-- The comprehension `game_pos = [(g, self.sample_position(g)) for g in
games]` (line 177).  `sample_position` is `randrange(len(game.history))`
(line 188), which raises `ValueError` on an empty range; `pr j` is the
j-th random draw. -/
def sampleGamePos (buf : List (Game α)) (pr : Nat → Nat) :
    List Nat → Nat → Except String (List (Nat × Nat))
  | [], _ => .ok []
  | gi :: gis, j =>
    if (buf.getD gi (Game.dummy α)).history.isEmpty then
      .error "ValueError: empty range for randrange"
    else
      match sampleGamePos buf pr gis (j + 1) with
      | .error e => .error e
      | .ok ps => .ok ((gi, pr j % (buf.getD gi (Game.dummy α)).history.length) :: ps)

/-- The final comprehension of `sample_batch` (lines 178-180), threading
the in-place mutation that `get_observation_from_index` may perform on
the shared game objects held by the buffer. -/
def buildBatch (resetObs : α) (numUnrollSteps tdSteps : Nat) :
    List (Game α) → List (Nat × Nat) → List (Game α) × List (BatchElem α)
  | buf, [] => (buf, [])
  | buf, (gi, i) :: rest =>
    let g := buf.getD gi (Game.dummy α)
    let se := sampleElement g resetObs i numUnrollSteps tdSteps
    let further := buildBatch resetObs numUnrollSteps tdSteps (buf.set gi se.1) rest
    (further.1, se.2 :: further.2)

/-- `ReplayBuffer.sample_batch` (lines 175-180).  `gr`/`pr` are the random
streams behind `random.choice` and `random.randrange`.  The result pairs
the batch (or the raised error) with the buffer contents afterwards. -/
def sampleBatch (rb : ReplayBuffer α) (resetObs : α) (gr pr : Nat → Nat)
    (numUnrollSteps tdSteps : Nat) :
    Except String (List (BatchElem α)) × List (Game α) :=
  match sampleGamesIdx rb.buffer ((List.range rb.batch_size).map gr) with
  | .error e => (.error e, rb.buffer)
  | .ok gis =>
    match sampleGamePos rb.buffer pr gis 0 with
    | .error e => (.error e, rb.buffer)
    | .ok gps =>
      let bb := buildBatch resetObs numUnrollSteps tdSteps rb.buffer gps
      (.ok bb.2, bb.1)

/-- The trajectory from the spec's `make_target` round-trip property (§8):
`rewards=[1,1,1]`, `root_values=[0.5,0.4,0.3,0.2]`, `discount=1.0`. -/
def specExample : Game Nat :=
  { observations := []
    history := []
    rewards := [1, 1, 1]
    child_visits := []
    root_values := [0.5, 0.4, 0.3, 0.2]
    action_space_size := 2
    discount := 1
    done := false }

/-- C1: for every trajectory (whose records are aligned at the requested
position, as the self-play pipeline guarantees) and every offset
`k ≤ num_unroll_steps`, the value target produced by `make_target` at
`i = index + k`, with bootstrap index `b = i + td_steps`, is
`root_values[b] * discount^td_steps` when `b` is within the recorded root
values and `0` otherwise, plus the discounted sum
`sum(rewards[i:b][j] * discount^j)`. -/
theorem makeTarget_value_formula (g : Game α) (index numUnrollSteps tdSteps k : Nat)
    (hk : k ≤ numUnrollSteps)
    (halign : index + k < g.root_values.length ∨ g.rewards.length ≤ index + k) :
    ((makeTarget g index numUnrollSteps tdSteps).getD k (0, none, [])).1 =
      specValueTarget g (index + k) tdSteps := by
  rw [makeTarget_getD g index numUnrollSteps tdSteps k hk]
  by_cases hi : index + k < g.root_values.length
  · simp only [targetAt, specValueTarget, hi, if_pos]
    rw [discountedRewardSum_eq_finsetSum]
  · rcases halign with h | h
    · exact absurd h hi
    · have hb : ¬ index + k + tdSteps < g.root_values.length := by omega
      have hdrop : g.rewards.drop (index + k) = [] := List.drop_eq_nil_of_le h
      simp [targetAt, specValueTarget, hi, hb, hdrop]

/-- C1 witness: the spec's concrete round-trip instance — with
`rewards=[1,1,1]`, `root_values=[0.5,0.4,0.3,0.2]`, `discount=1.0`,
`td_steps=1`, `index=0`, the value target at offset 0 is `1.4`. -/
theorem makeTarget_value_formula_witness :
    (0 + 0 < specExample.root_values.length ∨ specExample.rewards.length ≤ 0 + 0) ∧
    ((makeTarget specExample 0 0 1).getD 0 (0, none, [])).1 = 1.4 :=
  ⟨Or.inl (by decide),
   (makeTarget_value_formula specExample 0 0 1 0 (by decide) (Or.inl (by decide))).trans
     (by norm_num [specValueTarget, specExample, Finset.sum_range_one])⟩

/-- C2: in every target tuple of `make_target`, the `last_reward`
component is `rewards[i-1]` when `0 < i ≤ len(rewards)` and the `None`
sentinel otherwise; and whenever `i = index + k` is at or past
`len(root_values)` the whole tuple is exactly `(0, last_reward, [])` —
an absorbing state, produced totally rather than by raising. -/
theorem makeTarget_absorbing_and_lastReward (g : Game α)
    (index numUnrollSteps tdSteps k : Nat) (hk : k ≤ numUnrollSteps) :
    (g.root_values.length ≤ index + k →
      (makeTarget g index numUnrollSteps tdSteps).getD k (0, none, []) =
        (0,
         (if 0 < index + k ∧ index + k ≤ g.rewards.length then
            some (g.rewards.getD (index + k - 1) 0)
          else none),
         [])) ∧
    ((makeTarget g index numUnrollSteps tdSteps).getD k (0, none, [])).2.1 =
      (if 0 < index + k ∧ index + k ≤ g.rewards.length then
        some (g.rewards.getD (index + k - 1) 0)
      else none) := by
  rw [makeTarget_getD g index numUnrollSteps tdSteps k hk]
  constructor
  · intro h
    have hi : ¬ index + k < g.root_values.length := by omega
    simp [targetAt, hi]
  · by_cases hi : index + k < g.root_values.length <;> simp [targetAt, hi]

/-- C2 witness: on the spec's example trajectory, the target requested at
`index = 5` (past the 4 recorded root values, and past the 3 rewards) is
exactly `(0, none, [])`. -/
theorem makeTarget_absorbing_witness :
    (makeTarget specExample 5 0 1).getD 0 (0, none, []) = (0, none, []) :=
  ((makeTarget_absorbing_and_lastReward specExample 5 0 1 0 (by decide)).1
      (by decide)).trans (by decide)

lemma dequeAppendMax_length_le (maxlen : Nat) (buf : List β) (x : β) :
    (dequeAppendMax maxlen buf x).length ≤ maxlen := by
  by_cases h : buf.length < maxlen <;>
    simp [dequeAppendMax, h, List.length_append] <;> omega

lemma foldl_saveGame_bounded (gs : List (Game α)) (rb : ReplayBuffer α)
    (h : rb.buffer.length ≤ rb.window_size) :
    (gs.foldl saveGame rb).window_size = rb.window_size ∧
    (gs.foldl saveGame rb).buffer.length ≤ rb.window_size := by
  induction gs generalizing rb with
  | nil => exact ⟨rfl, h⟩
  | cons g gs ih =>
    have h2 : (saveGame rb g).buffer.length ≤ (saveGame rb g).window_size :=
      dequeAppendMax_length_le rb.window_size rb.buffer g
    have h3 := ih (saveGame rb g) h2
    exact ⟨h3.1, h3.2⟩

/-- C4: starting from a freshly constructed buffer of capacity
`window_size`, any sequence of `save_game` calls keeps the number of
stored trajectories at most `window_size`; and a `save_game` on a buffer
at capacity drops exactly the oldest trajectory and appends the new one
at the young end, keeping all others in order (FIFO). -/
theorem saveGame_fifo_capacity (w bs : Nat) (gs : List (Game α))
    (rb : ReplayBuffer α) (g : Game α) :
    (gs.foldl saveGame (ReplayBuffer.new α w bs)).buffer.length ≤ w ∧
    (rb.buffer.length = rb.window_size → 0 < rb.window_size →
      (saveGame rb g).buffer = rb.buffer.tail ++ [g]) := by
  constructor
  · exact (foldl_saveGame_bounded gs (ReplayBuffer.new α w bs) (by simp [ReplayBuffer.new])).2
  · intro hlen hpos
    have hnl : ¬ rb.buffer.length < rb.window_size := by omega
    have h1 : rb.buffer.length + 1 - rb.window_size = 1 := by omega
    unfold saveGame dequeAppendMax
    rw [if_neg hnl, h1]
    cases hbuf : rb.buffer with
    | nil => rw [hbuf] at hlen; simp at hlen; omega
    | cons a t => simp

lemma getObservationFromIndex_of_ne_nil {g : Game α} (resetObs : α) (i : Nat)
    (h : g.observations ≠ []) :
    getObservationFromIndex g resetObs i = (g, g.observations.get? i) := by
  simp [getObservationFromIndex, h]

lemma sampleElement_of_ne_nil {g : Game α} (resetObs : α) (i n td : Nat)
    (h : g.observations ≠ []) :
    sampleElement g resetObs i n td =
      (g, (g.observations.get? i, (g.history.drop i).take n, makeTarget g i n td)) := by
  simp [sampleElement, getObservationFromIndex_of_ne_nil resetObs i h]

lemma sampleGamesIdx_ok_lt {buf : List (Game α)} :
    ∀ {rs gis : List Nat}, sampleGamesIdx buf rs = .ok gis → ∀ gi ∈ gis, gi < buf.length := by
  intro rs
  induction rs with
  | nil =>
    intro gis h gi hgi
    simp only [sampleGamesIdx, Except.ok.injEq] at h
    subst h
    cases hgi
  | cons r rs ih =>
    intro gis h gi hgi
    simp only [sampleGamesIdx] at h
    by_cases hb : buf.isEmpty
    · rw [if_pos hb] at h; cases h
    · rw [if_neg hb] at h
      cases hrec : sampleGamesIdx buf rs with
      | error e => rw [hrec] at h; cases h
      | ok gis2 =>
        rw [hrec] at h
        cases h
        have hpos : 0 < buf.length := by
          cases buf with
          | nil => simp at hb
          | cons a t => simp
        rcases List.mem_cons.mp hgi with hgi | hgi
        · subst hgi; exact Nat.mod_lt _ hpos
        · exact ih hrec gi hgi

lemma sampleGamePos_ok {buf : List (Game α)} {pr : Nat → Nat} :
    ∀ {gis : List Nat} {j : Nat} {gps : List (Nat × Nat)},
    sampleGamePos buf pr gis j = .ok gps →
    gps.map Prod.fst = gis ∧
      ∀ p ∈ gps, p.2 < (buf.getD p.1 (Game.dummy α)).history.length := by
  intro gis
  induction gis with
  | nil =>
    intro j gps h
    simp only [sampleGamePos, Except.ok.injEq] at h
    subst h
    exact ⟨rfl, by intro p hp; cases hp⟩
  | cons gi gis ih =>
    intro j gps h
    simp only [sampleGamePos] at h
    by_cases hh : (buf.getD gi (Game.dummy α)).history.isEmpty
    · rw [if_pos hh] at h; cases h
    · rw [if_neg hh] at h
      cases hrec : sampleGamePos buf pr gis (j + 1) with
      | error e => rw [hrec] at h; cases h
      | ok ps =>
        rw [hrec] at h
        cases h
        have hrec2 := ih hrec
        have hpos : 0 < (buf.getD gi (Game.dummy α)).history.length := by
          cases hl : (buf.getD gi (Game.dummy α)).history with
          | nil => rw [hl] at hh; simp at hh
          | cons a t => exact Nat.succ_pos t.length
        refine ⟨by simp [hrec2.1], ?_⟩
        intro p hp
        rcases List.mem_cons.mp hp with hp2 | hp2
        · subst hp2; exact Nat.mod_lt _ hpos
        · exact hrec2.2 p hp2

lemma set_getD_self (l : List β) (i : Nat) (d : β) :
    l.set i (l.getD i d) = l := by
  induction l generalizing i with
  | nil => rfl
  | cons a t ih =>
    cases i with
    | zero => simp
    | succ m => simpa using ih m

lemma getD_mem_of_lt {l : List β} {i : Nat} (d : β) (h : i < l.length) :
    l.getD i d ∈ l := by
  rw [List.getD_eq_getElem?_getD, List.getElem?_eq_getElem h]
  exact List.getElem_mem h

lemma buildBatch_no_mutation {buf : List (Game α)} (resetObs : α) (n td : Nat) :
    ∀ {gps : List (Nat × Nat)},
    (∀ p ∈ gps, (buf.getD p.1 (Game.dummy α)).observations ≠ []) →
    buildBatch resetObs n td buf gps =
      (buf, gps.map (fun p =>
        ((buf.getD p.1 (Game.dummy α)).observations.get? p.2,
         ((buf.getD p.1 (Game.dummy α)).history.drop p.2).take n,
         makeTarget (buf.getD p.1 (Game.dummy α)) p.2 n td))) := by
  intro gps
  induction gps with
  | nil => intro _; rfl
  | cons p rest ih =>
    intro h
    obtain ⟨gi, i⟩ := p
    have hobs := h (gi, i) (List.mem_cons_self _ _)
    have hse := sampleElement_of_ne_nil (g := buf.getD gi (Game.dummy α)) resetObs i n td hobs
    simp only [buildBatch, hse, set_getD_self,
      ih (fun q hq => h q (List.mem_cons_of_mem _ hq)), List.map_cons]

lemma sampled_positions_valid {rb : ReplayBuffer α} {gr pr : Nat → Nat}
    {gis : List Nat} {gps : List (Nat × Nat)}
    (h1 : sampleGamesIdx rb.buffer ((List.range rb.batch_size).map gr) = .ok gis)
    (h2 : sampleGamePos rb.buffer pr gis 0 = .ok gps)
    (halign : ∀ g ∈ rb.buffer, g.observations.length = g.history.length) :
    ∀ p ∈ gps, p.1 < rb.buffer.length ∧
      p.2 < (rb.buffer.getD p.1 (Game.dummy α)).history.length ∧
      (rb.buffer.getD p.1 (Game.dummy α)).observations ≠ [] := by
  intro p hp
  have hpos := sampleGamePos_ok h2
  have hlt := hpos.2 p hp
  have hgi : p.1 < rb.buffer.length := by
    refine sampleGamesIdx_ok_lt h1 p.1 ?_
    rw [← hpos.1]
    exact List.mem_map_of_mem Prod.fst hp
  have hmem : rb.buffer.getD p.1 (Game.dummy α) ∈ rb.buffer :=
    getD_mem_of_lt (Game.dummy α) hgi
  have heq := halign _ hmem
  refine ⟨hgi, hlt, ?_⟩
  intro hnil
  rw [hnil] at heq
  simp only [List.length_nil] at heq
  omega

/-- C5: `sample_batch` (together with the `get_observation_from_index`
call it makes for each sampled position) never mutates a stored
trajectory: for every buffer whose trajectories satisfy the recording
invariant `len(observations) = len(history)`, the buffer contents after
`sample_batch` are exactly the buffer contents before, whether sampling
succeeds or raises. -/
theorem sampleBatch_preserves_trajectories (rb : ReplayBuffer α) (resetObs : α)
    (gr pr : Nat → Nat) (n td : Nat)
    (halign : ∀ g ∈ rb.buffer, g.observations.length = g.history.length) :
    (sampleBatch rb resetObs gr pr n td).2 = rb.buffer := by
  cases h1 : sampleGamesIdx rb.buffer ((List.range rb.batch_size).map gr) with
  | error e => simp [sampleBatch, h1]
  | ok gis =>
    cases h2 : sampleGamePos rb.buffer pr gis 0 with
    | error e => simp [sampleBatch, h1, h2]
    | ok gps =>
      have hno : ∀ p ∈ gps, (rb.buffer.getD p.1 (Game.dummy α)).observations ≠ [] :=
        fun p hp => (sampled_positions_valid h1 h2 halign p hp).2.2
      simp [sampleBatch, h1, h2, buildBatch_no_mutation resetObs n td hno]

/-- C3 (amended): every element of a successful `sample_batch` is the
triple `(observation at the sampled position i, the action slice
`history[i:i+num_unroll_steps]`, make_target at i)` for some stored
trajectory and in-range position; the action component holds
`min(num_unroll_steps, len(history) - i)` actions, which is fewer than
`num_unroll_steps` when the position is fewer than `num_unroll_steps`
moves before the end of the trajectory. -/
theorem sampleBatch_element_shape (rb : ReplayBuffer α) (resetObs : α)
    (gr pr : Nat → Nat) (n td : Nat) (es : List (BatchElem α))
    (bufAfter : List (Game α)) (j : Nat) (e : BatchElem α)
    (hok : sampleBatch rb resetObs gr pr n td = (.ok es, bufAfter))
    (halign : ∀ g ∈ rb.buffer, g.observations.length = g.history.length)
    (he : es.get? j = some e) :
    ∃ g i, g ∈ rb.buffer ∧ i < g.history.length ∧
      e = (g.observations.get? i, (g.history.drop i).take n, makeTarget g i n td) ∧
      e.2.1.length = min n (g.history.length - i) := by
  cases h1 : sampleGamesIdx rb.buffer ((List.range rb.batch_size).map gr) with
  | error er => simp [sampleBatch, h1] at hok
  | ok gis =>
    cases h2 : sampleGamePos rb.buffer pr gis 0 with
    | error er => simp [sampleBatch, h1, h2] at hok
    | ok gps =>
      have hvalid := sampled_positions_valid h1 h2 halign
      have hno : ∀ p ∈ gps, (rb.buffer.getD p.1 (Game.dummy α)).observations ≠ [] :=
        fun p hp => (hvalid p hp).2.2
      simp only [sampleBatch, h1, h2, buildBatch_no_mutation resetObs n td hno,
        Prod.mk.injEq, Except.ok.injEq] at hok
      rw [← hok.1, List.get?_map] at he
      cases hp : gps.get? j with
      | none => rw [hp] at he; cases he
      | some p =>
        rw [hp] at he
        have hpmem : p ∈ gps := List.get?_mem hp
        obtain ⟨hgi, hhist, hobs⟩ := hvalid p hpmem
        have he2 : e = ((rb.buffer.getD p.1 (Game.dummy α)).observations.get? p.2,
            ((rb.buffer.getD p.1 (Game.dummy α)).history.drop p.2).take n,
            makeTarget (rb.buffer.getD p.1 (Game.dummy α)) p.2 n td) :=
          (Option.some.injEq _ _ ▸ he).symm
        refine ⟨rb.buffer.getD p.1 (Game.dummy α), p.2,
          getD_mem_of_lt (Game.dummy α) hgi, hhist, he2, ?_⟩
        rw [he2]
        simp

/-- A one-move trajectory used in concrete instances. -/
def gOne : Game Nat :=
  { observations := [3]
    history := [9]
    rewards := [2]
    child_visits := [[1, 0]]
    root_values := [1]
    action_space_size := 2
    discount := 1
    done := false }

/-- A second one-move trajectory, distinguishable from `gOne`. -/
def gTwo : Game Nat :=
  { gOne with observations := [4], history := [8] }

/-- A buffer holding the single one-move trajectory `gOne`. -/
def rbOne : ReplayBuffer Nat :=
  { window_size := 5, batch_size := 1, buffer := [gOne] }

/-- C4 witness: three saves into a fresh capacity-2 buffer stay within
the bound, and a save onto the full buffer `[gOne, gTwo]` evicts exactly
`gOne`, the oldest. -/
theorem saveGame_fifo_capacity_witness :
    ([gOne, gTwo, gOne].foldl saveGame (ReplayBuffer.new Nat 2 1)).buffer.length ≤ 2 ∧
    (saveGame { window_size := 2, batch_size := 1, buffer := [gOne, gTwo] } gOne).buffer =
      [gTwo, gOne] := by
  refine ⟨(saveGame_fifo_capacity 2 1 [gOne, gTwo, gOne]
      { window_size := 2, batch_size := 1, buffer := [gOne, gTwo] } gOne).1, ?_⟩
  have h := (saveGame_fifo_capacity 2 1 [gOne, gTwo, gOne]
      { window_size := 2, batch_size := 1, buffer := [gOne, gTwo] } gOne).2
      (by decide) (by decide)
  rw [h]
  decide

/-- C5 witness: sampling a batch from the concrete buffer `rbOne` leaves
its stored trajectory untouched. -/
theorem sampleBatch_preserves_trajectories_witness :
    (sampleBatch rbOne 7 (fun _ => 0) (fun _ => 0) 1 1).2 = rbOne.buffer :=
  sampleBatch_preserves_trajectories rbOne 7 (fun _ => 0) (fun _ => 0) 1 1 (by decide)

/-- C3 counterexample: with the stored trajectory `gOne` of a single
move and `num_unroll_steps = 2`, the sampled element's action component
is the truncated slice `history[0:0+2] = [9]`, which has 1 action, not
`num_unroll_steps = 2`. -/
theorem sampleBatch_unroll_truncation_cex :
    ((sampleBatch rbOne 7 (fun _ => 0) (fun _ => 0) 2 1).1.map
        (fun es => es.map (fun e => e.2.1))) = .ok [[9]] ∧
    ¬ (([9] : List Nat).length = 2) :=
  ⟨by decide, by decide⟩

/-- C3 witness (amended claim): on the concrete buffer `rbOne` with
`num_unroll_steps = 2`, the sampled element is the assembled triple at
the sampled trajectory and position, with `min 2 (1 - 0) = 1` actions. -/
theorem sampleBatch_element_shape_witness :
    ∃ g i, g ∈ rbOne.buffer ∧ i < g.history.length ∧
      ((some 3 : Option Nat), ([9] : List Nat), makeTarget gOne 0 2 1) =
        (g.observations.get? i, (g.history.drop i).take 2, makeTarget g i 2 1) ∧
      ([9] : List Nat).length = min 2 (g.history.length - i) :=
  sampleBatch_element_shape rbOne 7 (fun _ => 0) (fun _ => 0) 2 1
    [((some 3 : Option Nat), ([9] : List Nat), makeTarget gOne 0 2 1)] [gOne] 0 _
    (by rfl) (by decide) (by rfl)

/-- C8: `sample_batch` on an empty buffer (with a positive batch size,
as every configuration here uses) surfaces the `IndexError` raised by
`random.choice` inside `sample_game`, and the buffer contents are left
unchanged by the failed call. -/
theorem sampleBatch_empty_buffer_error (rb : ReplayBuffer α) (resetObs : α)
    (gr pr : Nat → Nat) (n td : Nat)
    (hempty : rb.buffer = []) (hbs : 0 < rb.batch_size) :
    (sampleBatch rb resetObs gr pr n td).1 =
      .error "IndexError: cannot choose from an empty sequence" ∧
    (sampleBatch rb resetObs gr pr n td).2 = rb.buffer := by
  have hlen : ((List.range rb.batch_size).map gr).length = rb.batch_size := by simp
  have herr : sampleGamesIdx rb.buffer ((List.range rb.batch_size).map gr) =
      .error "IndexError: cannot choose from an empty sequence" := by
    rw [hempty]
    cases hd : (List.range rb.batch_size).map gr with
    | nil => rw [hd] at hlen; simp at hlen; omega
    | cons r rs => simp [sampleGamesIdx]
  exact ⟨by simp [sampleBatch, herr], by simp [sampleBatch, herr]⟩

/-- C8 witness: sampling a freshly constructed (hence empty) buffer with
the stock batch size 32 raises and preserves the (empty) contents. -/
theorem sampleBatch_empty_buffer_error_witness :
    (sampleBatch (ReplayBuffer.new Nat 5 32) 0 (fun _ => 0) (fun _ => 0) 5 10).1 =
      .error "IndexError: cannot choose from an empty sequence" ∧
    (sampleBatch (ReplayBuffer.new Nat 5 32) 0 (fun _ => 0) (fun _ => 0) 5 10).2 =
      (ReplayBuffer.new Nat 5 32).buffer :=
  sampleBatch_empty_buffer_error (ReplayBuffer.new Nat 5 32) 0 (fun _ => 0) (fun _ => 0)
    5 10 rfl (by decide)

/-- `games.game.Action` (lines 17-29): an index wrapper. -/
structure Action where
  index : Int
deriving DecidableEq

/-- `Action.__hash__` (lines 22-23): returns the index. -/
def Action.pyHash (a : Action) : Int := a.index

/-- `Action.__eq__` (lines 25-26) is literally `return self == other`:
it invokes itself on the same arguments.  Evaluation is modelled with an
explicit recursion budget; `none` models the `RecursionError` that the
unbounded self-call produces in CPython. -/
def actionEqFuel : Nat → Action → Action → Option Bool
  | 0, _, _ => none
  | fuel + 1, a, b => actionEqFuel fuel a b

/-- `Action.__gt__` (lines 28-29) is literally `return self > other`,
again an unconditional self-call. -/
def actionGtFuel : Nat → Action → Action → Option Bool
  | 0, _, _ => none
  | fuel + 1, a, b => actionGtFuel fuel a b

/-- C6 is false of the code: `Action.__eq__` and `Action.__gt__` never
return a Boolean for any pair of actions under any recursion budget —
each is an unconditional self-call, so `a == b` and `a > b` raise
`RecursionError` instead of comparing by index as `__hash__` and the
spec intend. -/
theorem actionEq_actionGt_never_return :
    ∀ (fuel : Nat) (a b : Action),
      actionEqFuel fuel a b = none ∧ actionGtFuel fuel a b = none := by
  intro fuel
  induction fuel with
  | zero => intro a b; exact ⟨rfl, rfl⟩
  | succ m ih => intro a b; exact ih a b

/-- Modelled from the spec: `utils.Node`, imported by `game.py`, is not
part of the repository snapshot.  Per §3, a node carries `visit_count`
(a non-negative integer), `prior`, `value_sum` and `children` (a mapping
from action to child node); `value()` is `value_sum / visit_count` when
`visit_count > 0` and `0` otherwise. -/
inductive Node : Type where
  | mk (visit_count : Nat) (prior : ℚ) (value_sum : ℚ) (children : List (Nat × Node))

def Node.visit_count : Node → Nat
  | .mk v _ _ _ => v

def Node.value_sum : Node → ℚ
  | .mk _ _ s _ => s

def Node.children : Node → List (Nat × Node)
  | .mk _ _ _ c => c

def Node.value (node : Node) : ℚ :=
  if node.visit_count > 0 then node.value_sum / (node.visit_count : ℚ) else 0

/-- `Game.apply` (lines 98-107).  The gym step is an external
collaborator: its outcome `(stepObs, stepReward, stepDone)` and the
observation a `reset()` would produce are parameters.  When the step
reports done, the episode flag is set and the reset observation is the
one recorded. -/
def Game.apply (g : Game α) (action : Nat) (stepObs : α) (stepReward : ℚ)
    (stepDone : Bool) (resetObs : α) : Game α :=
  { g with done := stepDone
           observations := g.observations ++ [if stepDone then resetObs else stepObs]
           rewards := g.rewards ++ [stepReward]
           history := g.history ++ [action] }

/-- `Game.store_search_statistics` (lines 109-115): appends the
visit-count distribution over the legal actions (0 for actions absent
from `root.children`) and the root value.  ℚ division is total, so the
`sum_visits = 0` `ZeroDivisionError` path is not modelled; no claim
depends on it. -/
def Game.storeSearchStatistics (g : Game α) (root : Node) : Game α :=
  { g with
    child_visits := g.child_visits ++
      [g.legalActions.map (fun a =>
        match root.children.lookup a with
        | some child => (child.visit_count : ℚ) / ((root.children.map
            (fun c => c.2.visit_count)).sum : ℚ)
        | none => 0)]
    root_values := g.root_values ++ [root.value] }

/-- The inputs consumed by one iteration of the `play_game` move loop
(`muzero.py` lines 58-76): the selected action, the environment step
outcome, the reset observation used if the step ends the episode, and
the searched root. -/
structure MoveInput (α : Type) where
  action : Nat
  stepObs : α
  stepReward : ℚ
  stepDone : Bool
  resetObs : α
  root : Node

/-- One completed move of the self-play loop (`muzero.py` lines 74-75):
`game.apply(action)` followed by `game.store_search_statistics(root)`. -/
def moveStep (g : Game α) (m : MoveInput α) : Game α :=
  (g.apply m.action m.stepObs m.stepReward m.stepDone m.resetObs).storeSearchStatistics m.root

/-- The spec's trajectory invariant (§3):
`len(rewards) == len(history) == len(child_visits) == len(root_values)`. -/
def lengthInvariant (g : Game α) : Prop :=
  g.rewards.length = g.history.length ∧
  g.history.length = g.child_visits.length ∧
  g.child_visits.length = g.root_values.length

lemma moveStep_lengthInvariant {g : Game α} (m : MoveInput α)
    (h : lengthInvariant g) : lengthInvariant (moveStep g m) := by
  obtain ⟨h1, h2, h3⟩ := h
  simp [moveStep, Game.apply, Game.storeSearchStatistics, lengthInvariant]
  omega

/-- C7: one completed move (`apply` then `store_search_statistics`)
preserves `len(rewards) == len(history) == len(child_visits) ==
len(root_values)`, and consequently the invariant holds at the end of
every move of a self-play episode started from a fresh game. -/
theorem move_preserves_length_invariant (g : Game α) (m : MoveInput α)
    (moves : List (MoveInput α)) (size : Nat) (discount : ℚ) :
    (lengthInvariant g → lengthInvariant (moveStep g m)) ∧
    lengthInvariant (moves.foldl moveStep (Game.new α size discount)) := by
  refine ⟨moveStep_lengthInvariant m, ?_⟩
  have key : ∀ (ms : List (MoveInput α)) (g0 : Game α), lengthInvariant g0 →
      lengthInvariant (ms.foldl moveStep g0) := by
    intro ms
    induction ms with
    | nil => intro g0 h; exact h
    | cons m0 ms ih => intro g0 h; exact ih (moveStep g0 m0) (moveStep_lengthInvariant m0 h)
  exact key moves _ ⟨rfl, rfl, rfl⟩

/-- A concrete move input for witnesses. -/
def mOne : MoveInput Nat :=
  { action := 0
    stepObs := 5
    stepReward := 1
    stepDone := false
    resetObs := 6
    root := Node.mk 1 1 1 [] }

/-- C7 witness: the invariant holds for a fresh game and survives the
concrete move `mOne`. -/
theorem move_preserves_length_invariant_witness :
    lengthInvariant (moveStep (Game.new Nat 2 1) mOne) :=
  (move_preserves_length_invariant (Game.new Nat 2 1) mOne [] 2 1).1 ⟨rfl, rfl, rfl⟩

/-- C10: when the environment step reports `done`, `apply` records the
fresh reset observation — never the terminal step observation — while
still appending the received reward and the applied action, and
`terminal()` is true afterwards. -/
theorem apply_done_records_reset (g : Game α) (action : Nat) (stepObs resetObs : α)
    (stepReward : ℚ) :
    (g.apply action stepObs stepReward true resetObs).observations =
      g.observations ++ [resetObs] ∧
    (g.apply action stepObs stepReward true resetObs).rewards =
      g.rewards ++ [stepReward] ∧
    (g.apply action stepObs stepReward true resetObs).history =
      g.history ++ [action] ∧
    (g.apply action stepObs stepReward true resetObs).terminal = true ∧
    (stepObs ≠ resetObs → stepObs ∉ g.observations →
      stepObs ∉ (g.apply action stepObs stepReward true resetObs).observations) := by
  refine ⟨by simp [Game.apply], by simp [Game.apply], by simp [Game.apply],
    by simp [Game.apply, Game.terminal], ?_⟩
  intro hne hmem hmem2
  simp only [Game.apply] at hmem2
  rcases List.mem_append.mp hmem2 with h | h
  · exact hmem h
  · simp at h
    exact hne h

/-- C10 witness: applying a terminal step to a fresh game records the
reset observation `4`, not the terminal observation `3`. -/
theorem apply_done_records_reset_witness :
    ((Game.new Nat 2 1).apply 0 3 1 true 4).observations = [4] ∧
    3 ∉ ((Game.new Nat 2 1).apply 0 3 1 true 4).observations := by
  have h := apply_done_records_reset (Game.new Nat 2 1) 0 3 4 1
  exact ⟨h.1.trans (by decide), h.2.2.2.2 (by decide) (by decide)⟩

/-- The orchestrator's buffer-fill wait (`muzero.py` lines 192-193):
`while len(replay_buffer.buffer) < 10: pass`.  `observe t` is the length
of `replay_buffer.buffer` read at poll `t` (it grows under concurrent
self-play appends); `fuel` bounds the number of polls, with `none`
modelling a wait that has not yet terminated. -/
def spinWaitBufferFill (observe : Nat → Nat) : Nat → Nat → Option Nat
  | 0, _ => none
  | fuel + 1, t =>
    if observe t < 10 then spinWaitBufferFill observe fuel (t + 1) else some t

/-- The tail of `muzero(config)` (lines 192-195): the spin wait followed
by the single `train_network` invocation.  The result records the buffer
length the orchestrator observed when it proceeded to training. -/
def muzeroTrainGate (observe : Nat → Nat) (fuel : Nat) : Option Nat :=
  match spinWaitBufferFill observe fuel 0 with
  | none => none
  | some t => some (observe t)

lemma spinWaitBufferFill_exit {observe : Nat → Nat} :
    ∀ {fuel t t2 : Nat}, spinWaitBufferFill observe fuel t = some t2 → 10 ≤ observe t2 := by
  intro fuel
  induction fuel with
  | zero => intro t t2 h; cases h
  | succ m ih =>
    intro t t2 h
    simp only [spinWaitBufferFill] at h
    by_cases hc : observe t < 10
    · rw [if_pos hc] at h
      exact ih h
    · rw [if_neg hc] at h
      cases h
      omega

/-- C9: the orchestrator reaches `train_network` only after the spin
wait on the buffer-fill threshold has observed
`len(replay_buffer.buffer) >= 10` — the buffer length recorded at the
poll that releases training is at least the fixed threshold K = 10. -/
theorem muzeroTrainGate_threshold (observe : Nat → Nat) (fuel obsLen : Nat)
    (h : muzeroTrainGate observe fuel = some obsLen) : 10 ≤ obsLen := by
  unfold muzeroTrainGate at h
  cases hw : spinWaitBufferFill observe fuel 0 with
  | none => rw [hw] at h; cases h
  | some t =>
    rw [hw] at h
    cases h
    exact spinWaitBufferFill_exit hw

/-- C9 witness: with a buffer that already holds 10 games at the first
poll, the orchestrator proceeds, and the observed length satisfies the
threshold. -/
theorem muzeroTrainGate_threshold_witness :
    muzeroTrainGate (fun _ => 10) 1 = some 10 ∧ 10 ≤ 10 :=
  ⟨rfl, muzeroTrainGate_threshold (fun _ => 10) 1 10 rfl⟩

end MuZero
